import Mathlib

/-!
Verification of the pricing/merge computation engine of the
repricer_ready_pro_keepa repository (src/services/pricing.py,
src/services/mapping.py, orchestrated by src/app.py).

Numeric cells of the pandas DataFrame are modelled as `Option ℚ`
(`none` models NaN after `pd.to_numeric(..., errors="coerce")`);
`Series.round(2)` is modelled as round-half-to-even at two decimals,
which is numpy's rounding rule.
-/

namespace Repricer

/-- Round-half-to-even to the nearest integer, numpy's rounding rule. -/
def roundHalfEven (q : ℚ) : ℤ :=
  if q - (⌊q⌋ : ℚ) < 1/2 then ⌊q⌋
  else if 1/2 < q - (⌊q⌋ : ℚ) then ⌊q⌋ + 1
  else if ⌊q⌋ % 2 = 0 then ⌊q⌋ else ⌊q⌋ + 1

/-- Model of pandas `Series.round(2)`: round to two decimal places. -/
def round2 (q : ℚ) : ℚ := (roundHalfEven (q * 100) : ℚ) / 100

/-- A row of the working DataFrame; only the columns the pricing core
reads or writes.  `none` models a NaN / missing cell. -/
structure Row where
  sito : Option String
  nostro_prezzo : Option ℚ
  buybox_price : Option ℚ
  shipping_cost : Option ℚ
  costo_acquisto : Option ℚ
  amazon_fee_pct_col : Option ℚ
  diff_euro : Option ℚ
  diff_pct : Option ℚ
  net_margin : Option ℚ
  deriving DecidableEq

/-- Decides whether the first list is a leading segment of the second. -/
def startsWithL : List Char → List Char → Bool
  | [], _ => true
  | _ :: _, [] => false
  | a :: as, b :: bs => a == b && startsWithL as bs

/-- Decides whether the first list occurs as a contiguous sublist of the
second; implements the substring test of `Series.str.contains`. -/
def containsSub (nd : List Char) : List Char → Bool
  | [] => startsWithL nd []
  | c :: cs => startsWithL nd (c :: cs) || containsSub nd cs

/-- ASCII lowercase on a character list (the case folding relevant to
the pattern `"Italia"` under Python's `re.IGNORECASE`). -/
def toLowerL (l : List Char) : List Char :=
  l.map (fun c => if 65 ≤ c.toNat ∧ c.toNat ≤ 90 then Char.ofNat (c.toNat + 32) else c)

/-- Case-insensitive substring test: the model of
`Series.str.contains(pat, case=False)` on one cell (the pattern
`"Italia"` has no regex metacharacters, so the regex semantics coincide
with plain substring search). -/
def strContainsCI (s pat : String) : Bool :=
  containsSub (toLowerL pat.toList) (toLowerL s.toList)

/-- `calculate_initial_shipping_cost` of src/services/pricing.py on one
cell of the `Sito` column: `np.where(df[c].str.contains("Italia",
case=False, na=False), 5.14, 11.50)`.  A NaN cell (`none`) falls in the
`na=False` branch and yields 11.50. -/
def calculate_initial_shipping_cost_row (sito : Option String) : ℚ :=
  match sito with
  | some s => if strContainsCI s "Italia" then (5.14 : ℚ) else (11.50 : ℚ)
  | none => (11.50 : ℚ)

/-- `calculate_initial_shipping_cost` over the whole DataFrame. -/
def calculate_initial_shipping_cost (rows : List Row) : List ℚ :=
  rows.map (fun r => calculate_initial_shipping_cost_row r.sito)

/-- The `diff_euro` column of `calculate_diffs`:
`(buybox_price - nostro_prezzo).round(2)`; NaN propagates through the
subtraction, with no zero test on `nostro_prezzo`. -/
def diff_euro_of (nostro buybox : Option ℚ) : Option ℚ :=
  match buybox, nostro with
  | some b, some n => some (round2 (b - n))
  | _, _ => none

/-- The `diff_pct` column of `calculate_diffs`: assigned only under the
mask `nostro.notna() & (nostro != 0) & (buybox.notna())`, then rounded;
outside the mask the cell stays NaN. -/
def diff_pct_of (nostro buybox : Option ℚ) : Option ℚ :=
  match nostro, buybox with
  | some n, some b => if n = 0 then none else some (round2 ((b / n - 1) * 100))
  | _, _ => none

/-- The body of `calculate_net_margin`:
`(nostro - nostro * (fee/100) - shipping).round(2)`; NaN in any operand
propagates.  The Python code never reads `costo_acquisto`. -/
def net_margin_of (nostro shipping fee : Option ℚ) : Option ℚ :=
  match nostro, shipping, fee with
  | some n, some s, some f => some (round2 (n - n * (f / 100) - s))
  | _, _, _ => none

/-- `calculate_net_margin(df, v)` on one row: uses the per-row
`amazon_fee_pct_col` when that column exists, else the scalar `v`. -/
def calculate_net_margin_row (feeColHere : Bool) (v : ℚ) (r : Row) : Option ℚ :=
  net_margin_of r.nostro_prezzo r.shipping_cost
    (if feeColHere then r.amazon_fee_pct_col else some v)

/-- One row of `update_all_calculated_columns(df, v)`: the code first
overwrites `amazon_fee_pct_col` with the scalar `v` (both branches of
the `if` assign it), then recomputes `diff_euro`, `diff_pct` and
`net_margin` from the current input columns. -/
def recomputeRow (v : ℚ) (r : Row) : Row :=
  let r1 : Row := { r with amazon_fee_pct_col := some v }
  { r1 with
    diff_euro := diff_euro_of r1.nostro_prezzo r1.buybox_price
    diff_pct := diff_pct_of r1.nostro_prezzo r1.buybox_price
    net_margin := calculate_net_margin_row true v r1 }

/-- `update_all_calculated_columns` over the whole DataFrame. -/
def update_all_calculated_columns (rows : List Row) (v : ℚ) : List Row :=
  rows.map (recomputeRow v)

/-- The scaled price before flooring, from `apply_scale_price`:
`prices * (1 - scale_value/100)` when percentage, else
`prices - scale_value`. -/
def scale_new_price (p v : ℚ) (isPct : Bool) : ℚ :=
  if isPct then p * (1 - v / 100) else p - v

/-- Structurally recursive indexed map used to model row-positional
`.loc` assignment over the DataFrame. -/
def mapWithIdx (f : ℕ → Row → Row) : ℕ → List Row → List Row
  | _, [] => []
  | i, r :: rs => f i r :: mapWithIdx f (i + 1) rs

/-- The per-row effect of `apply_scale_price`: a selected row has its
price read with `.fillna(0)`, scaled, floored by
`np.maximum(0.01, new_prices)` and rounded; other rows are untouched. -/
def scaleRowAt (sel : List ℕ) (v : ℚ) (isPct : Bool) (i : ℕ) (r : Row) : Row :=
  if i ∈ sel then
    let p := round2 (max (0.01 : ℚ) (scale_new_price ((r.nostro_prezzo).getD 0) v isPct))
    { r with nostro_prezzo := some p }
  else r

/-- `apply_scale_price(df, selected_indices, scale_value, is_percentage)`;
an empty selection returns the DataFrame unchanged. -/
def apply_scale_price (rows : List Row) (sel : List ℕ) (v : ℚ) (isPct : Bool) : List Row :=
  if sel = [] then rows else mapWithIdx (scaleRowAt sel v isPct) 0 rows

/-- The per-row effect of `apply_align_to_buybox`: within the selection
only rows with a non-NaN `buybox_price` (mask `notna()`) are assigned
`round2 (max 0.01 (buybox * (1 - v/100)))` (or `buybox - v`); rows with
NaN `buybox_price` and unselected rows are untouched. -/
def alignRowAt (sel : List ℕ) (v : ℚ) (isPct : Bool) (i : ℕ) (r : Row) : Row :=
  if i ∈ sel then
    match r.buybox_price with
    | some b =>
        let p := round2 (max (0.01 : ℚ) (if isPct then b * (1 - v / 100) else b - v))
        { r with nostro_prezzo := some p }
    | none => r
  else r

/-- `apply_align_to_buybox(df, selected_indices, delta_value,
is_percentage)`; an empty selection returns the DataFrame unchanged. -/
def apply_align_to_buybox (rows : List Row) (sel : List ℕ) (v : ℚ) (isPct : Bool) : List Row :=
  if sel = [] then rows else mapWithIdx (alignRowAt sel v isPct) 0 rows

/-- Numeric value of a digit run, most significant first. -/
def digitsVal (ds : List Char) : ℕ :=
  ds.foldl (fun a c => 10 * a + (c.toNat - 48)) 0

/-- Splits off the maximal leading run of decimal digits. -/
def takeDigits : List Char → List Char × List Char
  | [] => ([], [])
  | c :: cs =>
    if c.isDigit then
      let p := takeDigits cs
      (c :: p.1, p.2)
    else ([], c :: cs)

/-- Drops leading whitespace. -/
def skipWs : List Char → List Char
  | [] => []
  | c :: cs => if c.isWhitespace then skipWs cs else c :: cs

/-- True when the list is a percent sign after optional whitespace. -/
def pctAfterWs (l : List Char) : Bool :=
  match skipWs l with
  | '%' :: _ => true
  | _ => false

/-- Tries to match `digits, optional decimal point and digits, optional
whitespace, percent sign` at the head of the list, returning the
matched numeric value; mirrors one anchored attempt of the pattern,
preferring the variant that consumes the fractional part. -/
def tryPctAt (l : List Char) : Option ℚ :=
  match takeDigits l with
  | ([], _) => none
  | (d :: ds, rest) =>
    let ip : ℚ := (digitsVal (d :: ds) : ℚ)
    let withFrac : Option ℚ :=
      match rest with
      | '.' :: r2 =>
        match takeDigits r2 with
        | ([], _) => none
        | (f :: fs, r3) =>
          if pctAfterWs r3 then
            some (ip + (digitsVal (f :: fs) : ℚ) / (10 : ℚ) ^ (f :: fs).length)
          else none
      | _ => none
    match withFrac with
    | some q => some q
    | none => if pctAfterWs rest then some ip else none

/-- Leftmost match of the percentage pattern: the first position at
which an anchored attempt succeeds wins. -/
def scanPct : List Char → Option ℚ
  | [] => none
  | c :: cs =>
    match tryPctAt (c :: cs) with
    | some q => some q
    | none => scanPct cs

/-- Modelled from the spec: the fee-text parser of the Fee Resolver
(spec section 4.1) is not present under src/; per the spec it returns
the first substring of the cell matching digits, optional decimal point
and digits, optional whitespace, then a percent sign, as a number. -/
def firstPctMatch (s : String) : Option ℚ := scanPct s.toList

/-- A fee schedule: rows keyed by category label, each row an
association list from marketplace column key to free-text cell. -/
abbrev FeeSchedule := List (String × List (String × String))

/-- The `SITO_TO_LOCALE_MAP` of src/services/mapping.py, as a partial
map (`none` when the marketplace label has no entry). -/
def sitoToLocaleOpt (s : String) : Option String :=
  if s = "Italia - Amazon.it" then some "it"
  else if s = "Francia - Amazon.fr" then some "fr"
  else if s = "Germania - Amazon.de" then some "de"
  else if s = "Spagna - Amazon.es" then some "es"
  else if s = "Paesi bassi - Amazon.nl" then some "nl"
  else if s = "Belgio - Amazon.com.be" then some "be"
  else if s = "Irlanda - Amazon.ie" then some "ie"
  else if s = "Svezia - Amazon.se" then some "se"
  else none

/-- Cell lookup in a fee schedule: first the category row, then the
marketplace column; `none` on either miss. -/
def lookupCell (F : FeeSchedule) (cat key : String) : Option String :=
  match List.lookup cat F with
  | none => none
  | some cols => List.lookup key cols

/-- Modelled from the spec: the Fee Resolver `resolve_fee_pct` (spec
section 4.1) is not present under src/ (the code in
src/services/pricing.py applies only the single global percentage).
Faithful to the spec's steps: default when the schedule is absent, the
category is null or empty, the marketplace is null or unmapped, the
cell lookup misses, or no percentage substring matches; otherwise the
first parsed percentage of the cell. -/
def resolve_fee_pct (category : Option String) (marketplace : Option String)
    (sched : Option FeeSchedule) (d : ℚ) : ℚ :=
  match sched with
  | none => d
  | some F =>
    match category with
    | none => d
    | some c =>
      if c = "" then d
      else
        match marketplace with
        | none => d
        | some m =>
          match sitoToLocaleOpt m with
          | none => d
          | some key =>
            match lookupCell F c key with
            | none => d
            | some cell => (firstPctMatch cell).getD d

lemma roundHalfEven_intCast (n : ℤ) : roundHalfEven (n : ℚ) = n := by
  unfold roundHalfEven
  rw [Int.floor_intCast]
  norm_num

lemma round2_round2 (q : ℚ) : round2 (round2 q) = round2 q := by
  unfold round2
  rw [div_mul_cancel₀ _ (by norm_num : (100 : ℚ) ≠ 0), roundHalfEven_intCast]

lemma le_roundHalfEven (q : ℚ) (h : 1 ≤ q) : 1 ≤ roundHalfEven q := by
  have hf : (1 : ℤ) ≤ ⌊q⌋ := by
    rw [Int.le_floor]
    exact_mod_cast h
  unfold roundHalfEven
  split
  · omega
  · split
    · omega
    · split <;> omega

lemma round2_ge (q : ℚ) (h : 1/100 ≤ q) : 1/100 ≤ round2 q := by
  unfold round2
  have h1 : (1 : ℚ) ≤ q * 100 := by linarith
  have h2 : (1 : ℤ) ≤ roundHalfEven (q * 100) := le_roundHalfEven _ h1
  have h3 : (1 : ℚ) ≤ (roundHalfEven (q * 100) : ℚ) := by exact_mod_cast h2
  linarith

lemma mapWithIdx_get? (f : ℕ → Row → Row) (k i : ℕ) (l : List Row) :
    (mapWithIdx f k l).get? i = (l.get? i).map (f (k + i)) := by
  induction l generalizing k i with
  | nil => simp [mapWithIdx]
  | cons r rs ih =>
    cases i with
    | zero => simp [mapWithIdx]
    | succ j =>
      have hk : k + 1 + j = k + (j + 1) := by omega
      show (mapWithIdx f (k + 1) rs).get? j = (rs.get? j).map (f (k + (j + 1)))
      rw [ih (k + 1) j, hk]

lemma startsWithL_iff (a : List Char) : ∀ b, startsWithL a b = true ↔ ∃ t, a ++ t = b := by
  induction a with
  | nil =>
    intro b
    constructor
    · intro _
      exact ⟨b, rfl⟩
    · intro _
      rfl
  | cons x xs ih =>
    intro b
    cases b with
    | nil =>
      constructor
      · intro h
        exact absurd h (by simp [startsWithL])
      · rintro ⟨t, ht⟩
        exact absurd ht (by simp)
    | cons y ys =>
      have hd : startsWithL (x :: xs) (y :: ys) = (x == y && startsWithL xs ys) := rfl
      rw [hd, Bool.and_eq_true, beq_iff_eq, ih ys]
      constructor
      · rintro ⟨rfl, t, rfl⟩
        exact ⟨t, rfl⟩
      · rintro ⟨t, ht⟩
        injection ht with h1 h2
        exact ⟨h1, t, h2⟩

lemma containsSub_iff (nd : List Char) :
    ∀ hs, containsSub nd hs = true ↔ ∃ p t, p ++ nd ++ t = hs := by
  intro hs
  induction hs with
  | nil =>
    rw [show containsSub nd [] = startsWithL nd [] from rfl, startsWithL_iff]
    constructor
    · rintro ⟨t, ht⟩
      exact ⟨[], t, ht⟩
    · rintro ⟨p, t, ht⟩
      rcases List.append_eq_nil.mp ht with ⟨hp, hnt⟩
      rcases List.append_eq_nil.mp hp with ⟨hp0, hnd⟩
      exact ⟨[], by simp [hnd]⟩
  | cons c cs ih =>
    rw [show containsSub nd (c :: cs) = (startsWithL nd (c :: cs) || containsSub nd cs) from rfl,
      Bool.or_eq_true, startsWithL_iff, ih]
    constructor
    · rintro (⟨t, ht⟩ | ⟨p, t, ht⟩)
      · exact ⟨[], t, by simpa using ht⟩
      · exact ⟨c :: p, t, by simp [ht]⟩
    · rintro ⟨p, t, ht⟩
      cases p with
      | nil =>
        exact Or.inl ⟨t, by simpa using ht⟩
      | cons c2 p2 =>
        injection ht with h1 h2
        exact Or.inr ⟨p2, t, h2⟩

/-- Compact row builder for concrete instances. -/
def mkRow (sito : Option String) (np bb sc ca fee : Option ℚ) : Row :=
  { sito := sito, nostro_prezzo := np, buybox_price := bb, shipping_cost := sc,
    costo_acquisto := ca, amazon_fee_pct_col := fee,
    diff_euro := none, diff_pct := none, net_margin := none }

lemma recomputeRow_recomputeRow (v : ℚ) (r : Row) :
    recomputeRow v (recomputeRow v r) = recomputeRow v r := rfl

/-- C1: `calculate_net_margin` never subtracts the purchase cost.  On the
row with listing price 100, fee 15, shipping 5.14 and purchase cost 10
the code yields 79.86, while the claimed formula
`listing - listing*fee/100 - shipping - purchase` yields 69.86; the
absence half of the claim (margin is NaN when the listing price is NaN)
does hold. -/
theorem C1_margin_ignores_purchase_cost :
    calculate_net_margin_row true 15
      (mkRow none (some 100) none (some 5.14) (some 10) (some 15)) = some 79.86
    ∧ (mkRow none (some 100) none (some 5.14) (some 10) (some 15)).costo_acquisto = some 10
    ∧ round2 (100 - 100 * ((15 : ℚ) / 100) - 5.14 - 10) = 69.86
    ∧ (79.86 : ℚ) ≠ 69.86
    ∧ calculate_net_margin_row true 15
      (mkRow none none none (some 5.14) (some 10) (some 15)) = none := by
  have h1 : calculate_net_margin_row true 15
      (mkRow none (some 100) none (some 5.14) (some 10) (some 15))
      = some (round2 (100 - 100 * ((15 : ℚ) / 100) - 5.14)) := rfl
  refine ⟨?_, rfl, ?_, ?_, rfl⟩
  · rw [h1]
    norm_num [round2, roundHalfEven]
  · norm_num [round2, roundHalfEven]
  · norm_num

/-- C3: the recalculation orchestrator `update_all_calculated_columns`
is idempotent: a second pass over its own output is the identity,
because every derived column is recomputed from input columns that the
first pass left untouched. -/
theorem C3_recompute_idempotent (rows : List Row) (v : ℚ) :
    update_all_calculated_columns (update_all_calculated_columns rows v) v
    = update_all_calculated_columns rows v := by
  unfold update_all_calculated_columns
  rw [List.map_map]
  simp [Function.comp_def, recomputeRow_recomputeRow]

/-- C4 (amended): after recomputation, `diff_pct` is absent iff the
listing price is absent or zero or the competitor price is absent, but
`diff_euro` is absent iff the listing price is absent or the competitor
price is absent — a zero listing price does NOT make `diff_euro`
absent; when present, the two formulas hold, rounded to 2 decimals. -/
theorem C4_delta_absence (rows : List Row) (v : ℚ) (i : ℕ) (r : Row)
    (hr : rows.get? i = some r) :
    (update_all_calculated_columns rows v).get? i = some (recomputeRow v r)
    ∧ ((recomputeRow v r).diff_pct = none ↔
        r.nostro_prezzo = none ∨ r.nostro_prezzo = some 0 ∨ r.buybox_price = none)
    ∧ ((recomputeRow v r).diff_euro = none ↔
        r.nostro_prezzo = none ∨ r.buybox_price = none)
    ∧ (∀ n b, r.nostro_prezzo = some n → r.buybox_price = some b →
        (recomputeRow v r).diff_euro = some (round2 (b - n))
        ∧ (n ≠ 0 → (recomputeRow v r).diff_pct = some (round2 ((b / n - 1) * 100)))) := by
  have hpct : (recomputeRow v r).diff_pct = diff_pct_of r.nostro_prezzo r.buybox_price := rfl
  have heur : (recomputeRow v r).diff_euro = diff_euro_of r.nostro_prezzo r.buybox_price := rfl
  refine ⟨?_, ?_, ?_, ?_⟩
  · unfold update_all_calculated_columns
    rw [List.get?_map, hr]
    rfl
  · rw [hpct]
    rcases hn : r.nostro_prezzo with _ | n
    · simp [diff_pct_of]
    · rcases hb : r.buybox_price with _ | b
      · simp [diff_pct_of]
      · by_cases h0 : n = 0
        · simp [diff_pct_of, h0]
        · simp [diff_pct_of, h0]
  · rw [heur]
    rcases hn : r.nostro_prezzo with _ | n
    · simp [diff_euro_of]
    · rcases hb : r.buybox_price with _ | b
      · simp [diff_euro_of]
      · simp [diff_euro_of]
  · intro n b hn hb
    constructor
    · rw [heur, hn, hb]
      rfl
    · intro hne
      rw [hpct, hn, hb]
      simp [diff_pct_of, hne]

theorem C4_delta_absence_witness :
    (update_all_calculated_columns [mkRow none (some 100) (some 90) (some 5.14) none none] 15).get? 0
    = some (recomputeRow 15 (mkRow none (some 100) (some 90) (some 5.14) none none)) :=
  (C4_delta_absence [mkRow none (some 100) (some 90) (some 5.14) none none] 15 0
    (mkRow none (some 100) (some 90) (some 5.14) none none) rfl).1

/-- C4 counterexample: on a row with listing price 0 and competitor
price 90 the recomputed `diff_euro` is present (90.00) even though the
claim requires both delta columns to be absent when the listing price
is zero; only `diff_pct` is absent there. -/
theorem C4_counterexample :
    (mkRow none (some 0) (some 90) (some 5.14) none none).nostro_prezzo = some 0
    ∧ ((update_all_calculated_columns
        [mkRow none (some 0) (some 90) (some 5.14) none none] 15).get? 0).map Row.diff_euro
      = some (some 90)
    ∧ ((update_all_calculated_columns
        [mkRow none (some 0) (some 90) (some 5.14) none none] 15).get? 0).map Row.diff_pct
      = some none := by
  have h1 : ((update_all_calculated_columns
      [mkRow none (some 0) (some 90) (some 5.14) none none] 15).get? 0).map Row.diff_euro
      = some (some (round2 ((90 : ℚ) - 0))) := rfl
  refine ⟨rfl, ?_, rfl⟩
  rw [h1]
  have h2 : round2 ((90 : ℚ) - 0) = 90 := by norm_num [round2, roundHalfEven]
  rw [h2]

/-- C9: margin totality — after recomputation, a row with a present
listing price and a present shipping cost always has a present
`net_margin`, whatever its `amazon_fee_pct_col` or `costo_acquisto`
cells held (the fee column is overwritten with the always-present
global value and the purchase cost is not read at all); shipping cost
is a non-nullable number in the core's input contract, seeded by the
shipping rule at merge time. -/
theorem C9_margin_total (rows : List Row) (v : ℚ) (i : ℕ) (r : Row)
    (hr : rows.get? i = some r) (hp : r.nostro_prezzo ≠ none) (hs : r.shipping_cost ≠ none) :
    ∃ r2 m, (update_all_calculated_columns rows v).get? i = some r2
      ∧ r2.net_margin = some m := by
  obtain ⟨n, hn⟩ := Option.ne_none_iff_exists'.mp hp
  obtain ⟨s, hs2⟩ := Option.ne_none_iff_exists'.mp hs
  refine ⟨recomputeRow v r, round2 (n - n * (v / 100) - s), ?_, ?_⟩
  · unfold update_all_calculated_columns
    rw [List.get?_map, hr]
    rfl
  · have hm : (recomputeRow v r).net_margin
        = net_margin_of r.nostro_prezzo r.shipping_cost (some v) := rfl
    rw [hm, hn, hs2]
    rfl

theorem C9_margin_total_witness :
    ∃ r2 m, (update_all_calculated_columns
      [mkRow none (some 100) none (some 5.14) none none] 33).get? 0 = some r2
      ∧ r2.net_margin = some m :=
  C9_margin_total [mkRow none (some 100) none (some 5.14) none none] 33 0
    (mkRow none (some 100) none (some 5.14) none none) rfl (by decide) (by decide)

/-- C10: `update_all_calculated_columns(df, v)` overwrites
`amazon_fee_pct_col` with the single global value `v` on every row
(both branches of its `if` assign the scalar), so the fee used for
every net margin is uniform regardless of the row's category. -/
theorem C10_fee_uniform (rows : List Row) (v : ℚ) (r : Row)
    (h : r ∈ update_all_calculated_columns rows v) :
    r.amazon_fee_pct_col = some v := by
  unfold update_all_calculated_columns at h
  rcases List.mem_map.mp h with ⟨a, _, rfl⟩
  rfl

theorem C10_fee_uniform_witness :
    (recomputeRow 21 (mkRow none (some 100) none (some 5.14) none (some 7))).amazon_fee_pct_col
    = some 21 :=
  C10_fee_uniform [mkRow none (some 100) none (some 5.14) none (some 7)] 21
    (recomputeRow 21 (mkRow none (some 100) none (some 5.14) none (some 7))) (List.Mem.head _)

/-- C6 (amended): the shipping-cost rule returns 5.14 exactly when the
marketplace label contains the substring "Italia" case-insensitively
(the code tests only `"Italia"`; a label matching only "Italy" is not
matched), else 11.50; scenario A holds and a NaN label yields 11.50. -/
theorem C6_shipping_rule (s : String) :
    (calculate_initial_shipping_cost_row (some s) = 5.14 ↔
      ∃ p t, p ++ String.toList "italia" ++ t = toLowerL s.toList)
    ∧ (calculate_initial_shipping_cost_row (some s) = 5.14
       ∨ calculate_initial_shipping_cost_row (some s) = 11.50)
    ∧ calculate_initial_shipping_cost_row (some "Italia - Amazon.it") = 5.14
    ∧ calculate_initial_shipping_cost_row (some "Francia - Amazon.fr") = 11.50
    ∧ calculate_initial_shipping_cost_row none = 11.50 := by
  have hpat : toLowerL (String.toList "Italia") = String.toList "italia" := by decide
  have hrow : calculate_initial_shipping_cost_row (some s)
      = (if strContainsCI s "Italia" then (5.14 : ℚ) else 11.50) := rfl
  have hci : strContainsCI s "Italia"
      = containsSub (String.toList "italia") (toLowerL s.toList) := by
    rw [show strContainsCI s "Italia"
        = containsSub (toLowerL (String.toList "Italia")) (toLowerL s.toList) from rfl, hpat]
  have hiff : calculate_initial_shipping_cost_row (some s) = 5.14 ↔
      ∃ p t, p ++ String.toList "italia" ++ t = toLowerL s.toList := by
    rw [hrow, hci]
    cases hc : containsSub (String.toList "italia") (toLowerL s.toList) with
    | true =>
      rw [if_pos rfl]
      exact iff_of_true rfl ((containsSub_iff _ _).mp hc)
    | false =>
      rw [if_neg (by simp)]
      refine iff_of_false (by norm_num) ?_
      intro hex
      have hc2 := (containsSub_iff _ _).mpr hex
      exact absurd (hc2.symm.trans hc) (by decide)
  refine ⟨hiff, ?_, ?_, ?_, rfl⟩
  · rw [hrow]
    cases hc : strContainsCI s "Italia" with
    | true => exact Or.inl (by rw [if_pos rfl])
    | false => exact Or.inr (by rw [if_neg (by simp)])
  · have h : strContainsCI "Italia - Amazon.it" "Italia" = true := by decide
    rw [show calculate_initial_shipping_cost_row (some "Italia - Amazon.it")
        = (if strContainsCI "Italia - Amazon.it" "Italia" then (5.14 : ℚ) else 11.50) from rfl,
      h, if_pos rfl]
  · have h : strContainsCI "Francia - Amazon.fr" "Italia" = false := by decide
    rw [show calculate_initial_shipping_cost_row (some "Francia - Amazon.fr")
        = (if strContainsCI "Francia - Amazon.fr" "Italia" then (5.14 : ℚ) else 11.50) from rfl,
      h, if_neg (by simp)]

/-- C6 counterexample: the label "Italy - Amazon.it" contains the
substring "Italy" case-insensitively, so the claim's condition
("Italia"/"Italy") demands 5.14, but the code matches only "Italia" and
returns 11.50. -/
theorem C6_counterexample :
    containsSub (toLowerL (String.toList "Italy")) (toLowerL (String.toList "Italy - Amazon.it"))
      = true
    ∧ calculate_initial_shipping_cost_row (some "Italy - Amazon.it") = 11.50
    ∧ calculate_initial_shipping_cost_row (some "Italy - Amazon.it") ≠ 5.14 := by
  have h : strContainsCI "Italy - Amazon.it" "Italia" = false := by decide
  have hrow : calculate_initial_shipping_cost_row (some "Italy - Amazon.it")
      = (if strContainsCI "Italy - Amazon.it" "Italia" then (5.14 : ℚ) else 11.50) := rfl
  refine ⟨by decide, ?_, ?_⟩
  · rw [hrow, h, if_neg (by simp)]
  · rw [hrow, h, if_neg (by simp)]
    norm_num

/-- C2: the spec-modelled Fee Resolver returns the default on every
fallback path — absent schedule, null or empty category, null or
unmapped marketplace, cell-lookup miss — and otherwise the first
percentage substring parsed from the looked-up cell (default when no
substring matches); the tiered cell of scenario F parses to 15.  The
function is total, so lookup failure never raises. -/
theorem C2_fee_resolver (c m : Option String) (F : FeeSchedule) (d : ℚ) :
    resolve_fee_pct none m (some F) d = d
    ∧ resolve_fee_pct c m none d = d
    ∧ resolve_fee_pct (some "") m (some F) d = d
    ∧ resolve_fee_pct c none (some F) d = d
    ∧ (∀ s, sitoToLocaleOpt s = none → resolve_fee_pct c (some s) (some F) d = d)
    ∧ (∀ cat s key, cat ≠ "" → sitoToLocaleOpt s = some key →
        lookupCell F cat key = none →
        resolve_fee_pct (some cat) (some s) (some F) d = d)
    ∧ (∀ cat s key cell, cat ≠ "" → sitoToLocaleOpt s = some key →
        lookupCell F cat key = some cell →
        resolve_fee_pct (some cat) (some s) (some F) d = (firstPctMatch cell).getD d)
    ∧ firstPctMatch "15% fino a 50€; 10% oltre" = some 15 := by
  refine ⟨rfl, ?_, rfl, ?_, ?_, ?_, ?_, ?_⟩
  · cases c <;> rfl
  · cases c with
    | none => rfl
    | some c2 =>
      by_cases hc : c2 = "" <;> simp [resolve_fee_pct, hc]
  · intro s hmap
    cases c with
    | none => rfl
    | some c2 =>
      by_cases hc : c2 = "" <;> simp [resolve_fee_pct, hc, hmap]
  · intro cat s key hcat hmap hcell
    simp [resolve_fee_pct, hcat, hmap, hcell]
  · intro cat s key cell hcat hmap hcell
    simp [resolve_fee_pct, hcat, hmap, hcell]
  · decide

def FexC2 : FeeSchedule := [("Books", [("it", "15% fino a 50€; 10% oltre")])]

theorem C2_fee_resolver_witness :
    resolve_fee_pct (some "Books") (some "Italia - Amazon.it") (some FexC2) 9 = 15 := by
  have h := (C2_fee_resolver (some "Books") (some "Italia - Amazon.it") FexC2 9).2.2.2.2.2.2.1
    "Books" "Italia - Amazon.it" "it" "15% fino a 50€; 10% oltre"
    (by decide) (by decide) (by decide)
  rw [h]
  decide

/-- C5: price floor — for any in-bounds selection and any parameters of
either bulk strategy, every listing price written back is a
two-decimal value at least 0.01 (for the align strategy, on selected
rows whose competitor price is present). -/
theorem C5_price_floor (rows : List Row) (sel : List ℕ) (v : ℚ) (b : Bool) (i : ℕ) (r : Row)
    (hin : ∀ j ∈ sel, j < rows.length) (hi : i ∈ sel) (hr : rows.get? i = some r) :
    (∃ q, (apply_scale_price rows sel v b).get? i = some { r with nostro_prezzo := some q }
       ∧ 1/100 ≤ q ∧ round2 q = q)
    ∧ (∀ bb, r.buybox_price = some bb →
       ∃ q, (apply_align_to_buybox rows sel v b).get? i = some { r with nostro_prezzo := some q }
         ∧ 1/100 ≤ q ∧ round2 q = q) := by
  have hne : sel ≠ [] := by
    rintro rfl
    exact absurd hi (List.not_mem_nil i)
  have h001 : (0.01 : ℚ) = 1/100 := by norm_num
  constructor
  · refine ⟨round2 (max (0.01 : ℚ) (scale_new_price ((r.nostro_prezzo).getD 0) v b)),
      ?_, ?_, round2_round2 _⟩
    · unfold apply_scale_price
      rw [if_neg hne, mapWithIdx_get?, hr]
      show some (scaleRowAt sel v b (0 + i) r) = _
      rw [Nat.zero_add]
      unfold scaleRowAt
      rw [if_pos hi]
    · exact round2_ge _ (by rw [← h001]; exact le_max_left _ _)
  · intro bb hbb
    refine ⟨round2 (max (0.01 : ℚ) (if b then bb * (1 - v / 100) else bb - v)),
      ?_, ?_, round2_round2 _⟩
    · unfold apply_align_to_buybox
      rw [if_neg hne, mapWithIdx_get?, hr]
      show some (alignRowAt sel v b (0 + i) r) = _
      rw [Nat.zero_add]
      unfold alignRowAt
      rw [if_pos hi, hbb]
    · exact round2_ge _ (by rw [← h001]; exact le_max_left _ _)

theorem C5_price_floor_witness :
    ∃ q, (apply_scale_price [mkRow none (some 100) none (some 5.14) none none] [0] 1000
      false).get? 0
      = some { mkRow none (some 100) none (some 5.14) none none with nostro_prezzo := some q }
      ∧ 1/100 ≤ q ∧ round2 q = q :=
  (C5_price_floor [mkRow none (some 100) none (some 5.14) none none] [0] 1000 false 0
    (mkRow none (some 100) none (some 5.14) none none)
    (by decide) (by decide) rfl).1

/-- C7: frame property of the bulk strategies — an empty selection is a
no-op on the whole table; unselected rows are untouched; a selected row
is changed at most in its `nostro_prezzo` field; and the align strategy
leaves selected rows with absent competitor price completely untouched,
including their existing listing price. -/
theorem C7_bulk_frame (rows : List Row) (sel : List ℕ) (v : ℚ) (b : Bool) :
    apply_scale_price rows [] v b = rows
    ∧ apply_align_to_buybox rows [] v b = rows
    ∧ (∀ i, i ∉ sel →
        (apply_scale_price rows sel v b).get? i = rows.get? i
        ∧ (apply_align_to_buybox rows sel v b).get? i = rows.get? i)
    ∧ (∀ i r, i ∈ sel → rows.get? i = some r →
        (∃ p, (apply_scale_price rows sel v b).get? i = some { r with nostro_prezzo := p })
        ∧ (r.buybox_price = none → (apply_align_to_buybox rows sel v b).get? i = some r)
        ∧ (∀ bb, r.buybox_price = some bb →
            ∃ p, (apply_align_to_buybox rows sel v b).get? i
              = some { r with nostro_prezzo := p })) := by
  refine ⟨by unfold apply_scale_price; rw [if_pos rfl],
    by unfold apply_align_to_buybox; rw [if_pos rfl], ?_, ?_⟩
  · intro i hni
    by_cases hsel : sel = []
    · subst hsel
      constructor
      · unfold apply_scale_price
        rw [if_pos rfl]
      · unfold apply_align_to_buybox
        rw [if_pos rfl]
    · constructor
      · unfold apply_scale_price
        rw [if_neg hsel, mapWithIdx_get?]
        cases hr : rows.get? i with
        | none => rfl
        | some r =>
          show some (scaleRowAt sel v b (0 + i) r) = some r
          rw [Nat.zero_add]
          unfold scaleRowAt
          rw [if_neg hni]
      · unfold apply_align_to_buybox
        rw [if_neg hsel, mapWithIdx_get?]
        cases hr : rows.get? i with
        | none => rfl
        | some r =>
          show some (alignRowAt sel v b (0 + i) r) = some r
          rw [Nat.zero_add]
          unfold alignRowAt
          rw [if_neg hni]
  · intro i r hi hr
    have hne : sel ≠ [] := by
      rintro rfl
      exact absurd hi (List.not_mem_nil i)
    refine ⟨?_, ?_, ?_⟩
    · refine ⟨some (round2 (max (0.01 : ℚ) (scale_new_price ((r.nostro_prezzo).getD 0) v b))), ?_⟩
      unfold apply_scale_price
      rw [if_neg hne, mapWithIdx_get?, hr]
      show some (scaleRowAt sel v b (0 + i) r) = _
      rw [Nat.zero_add]
      unfold scaleRowAt
      rw [if_pos hi]
    · intro hbb
      unfold apply_align_to_buybox
      rw [if_neg hne, mapWithIdx_get?, hr]
      show some (alignRowAt sel v b (0 + i) r) = some r
      rw [Nat.zero_add]
      unfold alignRowAt
      rw [if_pos hi, hbb]
    · intro bb hbb
      refine ⟨some (round2 (max (0.01 : ℚ) (if b then bb * (1 - v / 100) else bb - v))), ?_⟩
      unfold apply_align_to_buybox
      rw [if_neg hne, mapWithIdx_get?, hr]
      show some (alignRowAt sel v b (0 + i) r) = _
      rw [Nat.zero_add]
      unfold alignRowAt
      rw [if_pos hi, hbb]

theorem C7_bulk_frame_witness :
    (apply_scale_price [mkRow none (some 100) none (some 5.14) none none,
      mkRow none (some 50) none (some 11.50) none none] [0] 5 false).get? 1
    = [mkRow none (some 100) none (some 5.14) none none,
      mkRow none (some 50) none (some 11.50) none none].get? 1 :=
  ((C7_bulk_frame [mkRow none (some 100) none (some 5.14) none none,
      mkRow none (some 50) none (some 11.50) none none] [0] 5 false).2.2.1 1 (by decide)).1

/-- C8: on a selected row whose listing price is absent,
`apply_scale_price` fills the price with 0, so an absolute discount by
a positive amount computes the negative value `0 - v` and the written
price is the floor 0.01. -/
theorem C8_scale_unset_price (rows : List Row) (sel : List ℕ) (v : ℚ) (i : ℕ) (r : Row)
    (hi : i ∈ sel) (hr : rows.get? i = some r) (hn : r.nostro_prezzo = none) (hv : 0 < v) :
    scale_new_price ((r.nostro_prezzo).getD 0) v false < 0
    ∧ (apply_scale_price rows sel v false).get? i
      = some { r with nostro_prezzo := some (1/100) } := by
  have hne : sel ≠ [] := by
    rintro rfl
    exact absurd hi (List.not_mem_nil i)
  have hsnp : scale_new_price ((r.nostro_prezzo).getD 0) v false = 0 - v := by
    rw [hn]
    rfl
  constructor
  · rw [hsnp]
    linarith
  · unfold apply_scale_price
    rw [if_neg hne, mapWithIdx_get?, hr]
    show some (scaleRowAt sel v false (0 + i) r) = _
    rw [Nat.zero_add]
    unfold scaleRowAt
    rw [if_pos hi, hsnp]
    have hmax : max (0.01 : ℚ) (0 - v) = 0.01 := max_eq_left (by linarith)
    rw [hmax]
    have hrd : round2 (0.01 : ℚ) = 1/100 := by norm_num [round2, roundHalfEven]
    rw [hrd]

theorem C8_scale_unset_price_witness :
    scale_new_price (((mkRow none none none (some 5.14) none none).nostro_prezzo).getD 0) 5 false
      < 0
    ∧ (apply_scale_price [mkRow none none none (some 5.14) none none] [0] 5 false).get? 0
      = some { mkRow none none none (some 5.14) none none with nostro_prezzo := some (1/100) } :=
  C8_scale_unset_price [mkRow none none none (some 5.14) none none] [0] 5 0
    (mkRow none none none (some 5.14) none none) (by decide) rfl rfl (by norm_num)

end Repricer
